import Mathlib

/-!
Verification of the KommandAI command-interpretation pipeline and frontend
helpers. Pure frontend functions (`getApiUrl`, cart operations, the WebSocket
message handler, the command request bodies) are embedded directly from the
JavaScript sources. The FastAPI backend (Command Catalog, Intent Resolver,
Confirmation Manager, Plan Executor, Suggestion Engine, Broadcast Fan-out) is
not part of the source tree, so those components are modelled from the
specification; each such definition carries a doc comment saying so.
JavaScript strings are embedded as `List Char` where character-level
operations (slice, startsWith) matter, and as Lean `String` elsewhere.
-/

/-! ## URL configuration helper (frontend/src/config.js) -/

/-- The one-character string "/". -/
def slashStr : List Char := ['/']

/-- JS `s.startsWith(p)` on strings embedded as `List Char`. -/
def strStartsWith (s p : List Char) : Bool :=
  p.isPrefixOf s

/-- JS `s.endsWith(p)` on strings embedded as `List Char`. -/
def strEndsWith (s p : List Char) : Bool :=
  p.reverse.isPrefixOf s.reverse

/-- Embedding of `getApiUrl` from `src/frontend/src/config.js` lines 6-18.
`endpoint.slice(1)` is `List.drop 1`; `API_URL.slice(0, -1)` is
`List.dropLast`; the JS truthiness test `if (API_URL)` is the test for a
non-empty string. Note the fallback branch returns `'/' + endpoint` with the
original, uncleaned endpoint, exactly as in the source. -/
def getApiUrl (apiUrl endpoint : List Char) : List Char :=
  let cleanEndpoint := if strStartsWith endpoint slashStr then endpoint.drop 1 else endpoint
  if apiUrl ≠ [] then
    let baseUrl := if strEndsWith apiUrl slashStr then apiUrl.dropLast else apiUrl
    baseUrl ++ slashStr ++ cleanEndpoint
  else
    slashStr ++ endpoint

/-! ## Cart operations (frontend/src/App.jsx lines 1136-1148) -/

structure Product where
  id : Nat
  name : String
  price : Nat
deriving DecidableEq

structure CartItem where
  id : Nat
  name : String
  price : Nat
  qty : Nat
deriving DecidableEq

/-- Embedding of `addToCart` from `src/frontend/src/App.jsx` lines 1136-1145:
if an entry with the product's id exists, map over the cart incrementing the
qty of entries with that id; otherwise append the spread product with
`qty: 1`. -/
def addToCart (product : Product) (cart : List CartItem) : List CartItem :=
  if cart.any (fun i => i.id == product.id) then
    cart.map (fun i => if i.id == product.id then { i with qty := i.qty + 1 } else i)
  else
    cart ++ [{ id := product.id, name := product.name, price := product.price, qty := 1 }]

/-- Embedding of `removeFromCart` from `src/frontend/src/App.jsx` line 1147:
keep the entries whose id differs from the given id. -/
def removeFromCart (id : Nat) (cart : List CartItem) : List CartItem :=
  cart.filter (fun i => !(i.id == id))

/-- The cart invariant: no two entries share a product id. -/
def cartUniqueIds (cart : List CartItem) : Prop :=
  cart.Pairwise (fun a b => a.id ≠ b.id)

/-! ## WebSocket client handler (src/unnamed/part_002 lines 48-56 and 1161-1171) -/

structure WsMessage where
  type : String
  action : String
  message : String
  success : Bool
  entity : String
  operation : String
deriving DecidableEq

/-- Client-side state touched by the WebSocket handler: the activity log and
the number of data refetches issued (`fetchData` is an HTTP effect, modelled
as a counter). Log entries are (message, kind) pairs; the wall-clock
timestamp attached by `addLog` is irrelevant to the claims and omitted. -/
structure ClientState where
  logs : List (String × String)
  fetchCount : Nat
deriving DecidableEq

/-- Embedding of `addLog` from `src/unnamed/part_002` lines 71-74: prepend
the new entry and keep the first 50 (`.slice(0, 50)` is `List.take 50`). -/
def addLog (message logType : String) (st : ClientState) : ClientState :=
  { st with logs := ((message, logType) :: st.logs).take 50 }

/-- Embedding of `handleWebSocketMessage` from `src/unnamed/part_002`
lines 48-56 (same structure at lines 1161-1171): `action_result` logs
"action: message" with kind success/error and refetches; `data_update` logs
"entity operation" with kind info and refetches; any other type does
nothing. -/
def handleWebSocketMessage (msg : WsMessage) (st : ClientState) : ClientState :=
  if msg.type = "action_result" then
    let st1 := addLog (msg.action ++ ": " ++ msg.message)
      (if msg.success then "success" else "error") st
    { st1 with fetchCount := st1.fetchCount + 1 }
  else if msg.type = "data_update" then
    let st1 := addLog (msg.entity ++ " " ++ msg.operation) "info" st
    { st1 with fetchCount := st1.fetchCount + 1 }
  else
    st

/-- Modelled from the spec: the Broadcast Fan-out channel messages of section 6
have `type: "action_result" | "data_update"`; the emitting backend is not in
the source tree. -/
inductive BroadcastEvent where
  | actionResult (action message : String) (success : Bool)
  | dataUpdate (entity operation : String)

/-- Modelled from the spec: rendering a broadcast event as the wire message
received by `handleWebSocketMessage`. -/
def BroadcastEvent.toMessage : BroadcastEvent → WsMessage
  | BroadcastEvent.actionResult a m s =>
    { type := "action_result", action := a, message := m, success := s,
      entity := "", operation := "" }
  | BroadcastEvent.dataUpdate e o =>
    { type := "data_update", action := "", message := "", success := true,
      entity := e, operation := o }

/-! ## JSON bodies of the command calls -/

/-- A fragment of JSON, enough to state request and response shapes. -/
inductive JVal where
  | str (s : String)
  | boolean (b : Bool)
  | num (n : Nat)
  | obj (fields : List (String × JVal))

def getField (v : JVal) (key : String) : Option JVal :=
  match v with
  | JVal.obj fields => (fields.find? (fun f => f.1 == key)).map (fun f => f.2)
  | _ => none

def hasField (v : JVal) (key : String) : Bool :=
  (getField v key).isSome

/-- The request shape claimed in section 6 of the spec:
`{text, context:{role, scope, sessionId}}`. -/
def specCommandRequestShape (v : JVal) : Bool :=
  hasField v "text" &&
    (match getField v "context" with
     | some ctx => hasField ctx "role" && hasField ctx "scope" && hasField ctx "sessionId"
     | none => false)

/-- Embedding of the body built by `sendCommand` in `src/unnamed/part_002`
lines 83-87: `JSON.stringify({ text: command })`. -/
def dashboardCommandBody (command : String) : JVal :=
  JVal.obj [("text", JVal.str command)]

/-- Embedding of the body built by `sendCommand` in
`src/frontend/src/App.jsx` lines 884-887:
`JSON.stringify({ text: command.trim() })`. -/
def multiShopCommandBody (command : String) : JVal :=
  JVal.obj [("text", JVal.str command.trim)]

/-- Embedding of the body built by `sendCommand` in `src/unnamed/part_002`
lines 496-499 and 2075-2078: `JSON.stringify({ command: command.trim() })`. -/
def shopAdminCommandBody (command : String) : JVal :=
  JVal.obj [("command", JVal.str command.trim)]

/-- Response of the command endpoint as specified in section 6:
`{success, action, message, requires_confirmation, confirmation_id?, data?}`. -/
structure CommandResponse where
  success : Bool
  action : String
  message : String
  requiresConfirmation : Bool
  confirmationId : Option Nat
  data : Option JVal

/-- Modelled from the spec: the backend's JSON rendering of a command
response (section 6); the FastAPI routes are not in the source tree. -/
def encodeCommandResponse (r : CommandResponse) : JVal :=
  JVal.obj
    ([("success", JVal.boolean r.success),
      ("action", JVal.str r.action),
      ("message", JVal.str r.message),
      ("requires_confirmation", JVal.boolean r.requiresConfirmation)]
     ++ (match r.confirmationId with
         | some t => [("confirmation_id", JVal.num t)]
         | none => [])
     ++ (match r.data with
         | some d => [("data", d)]
         | none => []))

/-- The mandatory fields of the specified response shape. -/
def specCommandResponseShape (v : JVal) : Bool :=
  hasField v "success" && hasField v "action" && hasField v "message" &&
    hasField v "requires_confirmation"

/-! ## Confirmation Manager and destructive-command gating

Modelled from the spec (sections 3, 4.3, 4.4, 8): the backend services are
not in the source tree. The domain collaborators are abstracted as an
append-only log of executed (action, parameters) invocations; "no domain
mutation" is "the log is unchanged". -/

structure ActionDescriptor where
  name : String
  destructive : Bool
  allowedRoles : List String
deriving DecidableEq

/-- Modelled from the spec, section 3 `PendingConfirmation`: token, resolved
action name and bound parameters, requester, creation and expiry time,
consumed flag. Times are abstract ticks; the opaque token is a `Nat` drawn
from a counter. -/
structure PendingConfirmation where
  token : Nat
  actionName : String
  params : List (String × String)
  requester : String
  createdAt : Nat
  expiresAt : Nat
  consumed : Bool
deriving DecidableEq

/-- Modelled from the spec, section 9: the process-wide registry of pending
confirmations plus the abstract domain log. -/
structure ManagerState where
  pending : List PendingConfirmation
  nextToken : Nat
  domainLog : List (String × List (String × String))
deriving DecidableEq

def lookupToken (s : ManagerState) (t : Nat) : Option PendingConfirmation :=
  s.pending.find? (fun p => p.token == t)

/-- Modelled from the spec, section 4.3 `create`: register a pending
confirmation with a fresh token and expiry `now + ttl`. -/
def createConfirmation (action : String) (params : List (String × String))
    (requester : String) (now ttl : Nat) (s : ManagerState) : Nat × ManagerState :=
  (s.nextToken,
   { s with
     nextToken := s.nextToken + 1,
     pending := s.pending ++
       [{ token := s.nextToken, actionName := action, params := params,
          requester := requester, createdAt := now, expiresAt := now + ttl,
          consumed := false }] })

inductive ConfirmOutcome where
  | executed (action : String) (params : List (String × String))
  | alreadyConsumed
  | expired
  | unknown
deriving DecidableEq

/-- Mark every entry carrying the token as consumed. -/
def markConsumed (t : Nat) (s : ManagerState) : ManagerState :=
  { s with pending := s.pending.map (fun q =>
      if q.token == t then { q with consumed := true } else q) }

/-- Modelled from the spec, section 4.3 `confirm(token)`: unknown tokens are
rejected, consumed tokens report `AlreadyConsumed`, expiry is checked lazily
at consumption time and reports `Expired`; only a live token executes the
pending action (appending to the domain log) and is marked consumed. -/
def confirmToken (t : Nat) (now : Nat) (s : ManagerState) :
    ConfirmOutcome × ManagerState :=
  match lookupToken s t with
  | none => (ConfirmOutcome.unknown, s)
  | some p =>
    if p.consumed then (ConfirmOutcome.alreadyConsumed, s)
    else if p.expiresAt ≤ now then (ConfirmOutcome.expired, s)
    else
      (ConfirmOutcome.executed p.actionName p.params,
       { markConsumed t s with domainLog := s.domainLog ++ [(p.actionName, p.params)] })

/-- Modelled from the spec, section 3 lifecycle: the periodic sweep
garbage-collects expired, unconsumed tokens. Consumed entries are retained
so that a later `confirm` still reports `AlreadyConsumed` (section 8). -/
def sweepExpired (now : Nat) (s : ManagerState) : ManagerState :=
  { s with pending := s.pending.filter (fun p => p.consumed || decide (now < p.expiresAt)) }

/-- Modelled from the spec, section 4.3 `cancel(token)`: drop the pending
entry; consumed entries are retained as for the sweep. -/
def cancelToken (t : Nat) (s : ManagerState) : ManagerState :=
  { s with pending := s.pending.filter (fun p => p.consumed || !(p.token == t)) }

/-- Modelled from the spec, section 4.3: a supplied token is valid for a
command when it is registered, unconsumed, unexpired, and bound to exactly
this action and parameters. -/
def tokenValidFor (s : ManagerState) (now : Nat) (action : String)
    (params : List (String × String)) : Option Nat → Bool
  | none => false
  | some t =>
    match lookupToken s t with
    | some p =>
      !p.consumed && decide (now < p.expiresAt) && (p.actionName == action) &&
        (p.params == params)
    | none => false

/-- Consume the supplied token, when present. -/
def consumeSupplied (tokenOpt : Option Nat) (s : ManagerState) : ManagerState :=
  match tokenOpt with
  | some t => markConsumed t s
  | none => s

/-- Modelled from the spec, sections 4.3, 6 and 8: the command call. A
destructive action without a valid unconsumed token for this exact
action+params short-circuits to the Confirmation Manager and mutates
nothing; otherwise the action executes against the domain (a destructive
execution consumes the supplied token). -/
def sendCommand (d : ActionDescriptor) (params : List (String × String))
    (requester : String) (tokenOpt : Option Nat) (now ttl : Nat)
    (s : ManagerState) : CommandResponse × ManagerState :=
  if d.destructive && !(tokenValidFor s now d.name params tokenOpt) then
    let created := createConfirmation d.name params requester now ttl s
    ({ success := false, action := d.name, message := "confirmation required",
       requiresConfirmation := true, confirmationId := some created.1,
       data := none }, created.2)
  else
    let s1 := if d.destructive then consumeSupplied tokenOpt s else s
    ({ success := true, action := d.name, message := "executed",
       requiresConfirmation := false, confirmationId := none, data := none },
     { s1 with domainLog := s1.domainLog ++ [(d.name, params)] })

/-- The operations that touch the shared confirmation registry. -/
inductive ManagerOp where
  | command (d : ActionDescriptor) (params : List (String × String))
      (requester : String) (tokenOpt : Option Nat) (now ttl : Nat)
  | confirm (t : Nat) (now : Nat)
  | sweep (now : Nat)
  | cancel (t : Nat)

def applyOp (s : ManagerState) : ManagerOp → ManagerState
  | ManagerOp.command d params requester tokenOpt now ttl =>
    (sendCommand d params requester tokenOpt now ttl s).2
  | ManagerOp.confirm t now => (confirmToken t now s).2
  | ManagerOp.sweep now => sweepExpired now s
  | ManagerOp.cancel t => cancelToken t s

def applyOps (s : ManagerState) : List ManagerOp → ManagerState
  | [] => s
  | op :: rest => applyOps (applyOp s op) rest

/-- After consumption the token is pinned: it is below the token counter,
some entry still carries it, and every entry carrying it is consumed. -/
def consumedAt (s : ManagerState) (t : Nat) : Prop :=
  t < s.nextToken ∧ (∃ p, p ∈ s.pending ∧ p.token = t) ∧
    (∀ p, p ∈ s.pending → p.token = t → p.consumed = true)

/-- A manager state holding one unconsumed pending confirmation (token 0,
expiry tick 10), used as the concrete input of witnesses and
counterexamples. -/
def samplePendingState : ManagerState :=
  { pending := [{ token := 0, actionName := "delete_product",
                  params := [("id", "5")], requester := "admin",
                  createdAt := 0, expiresAt := 10, consumed := false }],
    nextToken := 1, domainLog := [] }

/-! ## Plan Executor

Modelled from the spec, section 4.5: the backend service is not in the
source tree. A step's execution is an abstract state transformer returning
success or failure; parameter templates resolving against prior outputs are
subsumed by threading the state `σ`. -/

inductive StepStatus where
  | succeeded
  | failed
  | notAttempted
deriving DecidableEq

structure PlanRun (σ : Type) where
  statuses : List StepStatus
  overallSuccess : Bool
  finalState : σ

/-- Modelled from the spec, section 4.5 `run`: execute steps strictly in
order; on the first non-success halt, mark that step failed and every later
step not-attempted, with overall success false. -/
def runPlan {σ α : Type} (exec : σ → α → Bool × σ) :
    σ → List α → PlanRun σ
  | s, [] => { statuses := [], overallSuccess := true, finalState := s }
  | s, step :: rest =>
    let r := exec s step
    if r.1 then
      let tail := runPlan exec r.2 rest
      { statuses := StepStatus.succeeded :: tail.statuses,
        overallSuccess := tail.overallSuccess, finalState := tail.finalState }
    else
      { statuses := StepStatus.failed :: rest.map (fun _ => StepStatus.notAttempted),
        overallSuccess := false, finalState := r.2 }

/-! ## Intent Resolver

Modelled from the spec, section 4.1: the backend service is not in the
source tree. The external inference collaborator is abstracted as an
`Option Intent` (its failure, timeout or low confidence is `none`); the
fallback is an ordered first-match-wins rule list. -/

structure Intent where
  actionName : String
  params : List (String × String)
  fromFallback : Bool
deriving DecidableEq

structure MatcherRule where
  applies : String → Bool
  action : String
  extract : String → List (String × String)

inductive ResolveResult where
  | ok (i : Intent)
  | parseFailure
deriving DecidableEq

/-- The role-visible subset of the catalog. -/
def roleVisible (catalog : List ActionDescriptor) (role : String) :
    List ActionDescriptor :=
  catalog.filter (fun d => d.allowedRoles.contains role)

/-- Modelled from the spec, section 4.1 `resolve`: the primary path's intent,
or else the first matching fallback rule's intent; either way an intent
naming an action outside the role-visible subset is a `ParseFailure`. -/
def resolve (catalog : List ActionDescriptor) (rules : List MatcherRule)
    (role : String) (primary : Option Intent) (text : String) : ResolveResult :=
  let visible := roleVisible catalog role
  let vetted : Intent → ResolveResult := fun i =>
    if visible.any (fun d => d.name == i.actionName) then ResolveResult.ok i
    else ResolveResult.parseFailure
  match primary with
  | some i => vetted i
  | none =>
    match rules.find? (fun r => r.applies text) with
    | some r => vetted { actionName := r.action, params := r.extract text, fromFallback := true }
    | none => ResolveResult.parseFailure

/-- Modelled from the spec, section 7: only a resolved intent is forwarded to
execution; a `ParseFailure` executes nothing. -/
def forwardResolved (execLog : List (String × List (String × String))) :
    ResolveResult → List (String × List (String × String))
  | ResolveResult.ok i => execLog ++ [(i.actionName, i.params)]
  | ResolveResult.parseFailure => execLog

/-! ## Suggestion Engine

Modelled from the spec, section 4.7: the backend service is not in the
source tree. Matching combines prefix matching on the canonical phrasing
(weighted) with token-overlap scoring; ranking sorts by score descending
with ties broken by catalog declaration order. -/

structure SuggestEntry where
  name : String
  canonical : String
  description : String
  allowedRoles : List String
deriving DecidableEq

def strTokens (s : String) : List String :=
  s.splitOn " "

/-- Modelled from the spec: prefix matches on the canonical phrasing earn a
fixed bonus, plus one point per query token occurring in the canonical
phrasing (the weights are a modelling choice; only the ordering matters to
the claims). -/
def suggestScore (query : String) (e : SuggestEntry) : Nat :=
  (if e.canonical.startsWith query then 100 else 0) +
    ((strTokens query).filter (fun t => (strTokens e.canonical).contains t)).length

structure RankedSuggestion where
  score : Nat
  declIndex : Nat
  entry : SuggestEntry
deriving DecidableEq

/-- The ranking order: higher score first, ties by catalog declaration
order. -/
def suggestKeyLE (a b : RankedSuggestion) : Prop :=
  b.score < a.score ∨ (a.score = b.score ∧ a.declIndex ≤ b.declIndex)

instance : DecidableRel suggestKeyLE := fun a b => by
  unfold suggestKeyLE
  infer_instance

instance : IsTotal RankedSuggestion suggestKeyLE :=
  ⟨by intro a b; unfold suggestKeyLE; omega⟩

instance : IsTrans RankedSuggestion suggestKeyLE :=
  ⟨by intro a b c; unfold suggestKeyLE; omega⟩

/-- Modelled from the spec, section 4.7 `suggest`: score the role-visible
entries (tagged with their catalog declaration index), sort by score with
declaration-order tie-break, and truncate to the limit. -/
def suggest (catalog : List SuggestEntry) (role query : String) (limit : Nat) :
    List RankedSuggestion :=
  let visible := catalog.enum.filter (fun p => p.2.allowedRoles.contains role)
  let scored := visible.map
    (fun p => { score := suggestScore query p.2, declIndex := p.1, entry := p.2 })
  (scored.insertionSort suggestKeyLE).take limit

/-! ## Theorems -/

/-- C10 counterexample: in the relative-URL fallback branch (API_URL empty),
`getApiUrl` is sensitive to a leading slash: "api" yields "/api" while
"/api" yields "//api". -/
theorem getApiUrl_leading_slash_counterexample :
    getApiUrl [] (['a', 'p', 'i']) ≠ getApiUrl [] (slashStr ++ ['a', 'p', 'i']) := by
  decide

/-- C10 (amended): when API_URL is configured (non-empty) and the endpoint
does not already begin with a slash, `getApiUrl` returns the same URL for
the endpoint with and without a leading slash; the fallback branch returns
`'/' + endpoint` uncleaned, so the equality fails there. -/
theorem getApiUrl_leading_slash_insensitive (apiUrl endpoint : List Char)
    (h1 : apiUrl ≠ []) (h2 : strStartsWith endpoint slashStr = false) :
    getApiUrl apiUrl endpoint = getApiUrl apiUrl (slashStr ++ endpoint) := by
  have h2' : strStartsWith endpoint (['/'] : List Char) = false := h2
  have hs' : strStartsWith (('/' :: endpoint : List Char)) (['/'] : List Char) = true := by
    simp [strStartsWith, List.isPrefixOf]
  simp only [getApiUrl, slashStr, List.singleton_append, h1, ne_eq, not_false_iff, if_true]
  simp only [h2', hs']
  simp

/-- Witness for the amended C10 theorem at a concrete configured base URL
and endpoint. -/
theorem getApiUrl_leading_slash_insensitive_witness :
    getApiUrl ['h'] (['a', 'p', 'i']) = getApiUrl ['h'] (slashStr ++ ['a', 'p', 'i']) :=
  getApiUrl_leading_slash_insensitive ['h'] (['a', 'p', 'i']) (by decide) (by decide)

/-- C6 counterexample: none of the three `sendCommand` request bodies in the
sources matches the specified shape `{text, context:{role, scope,
sessionId}}` — no body carries a `context` field at all, and the shop-admin
variants do not even use the key `text`. -/
theorem command_request_shape_counterexample :
    specCommandRequestShape (multiShopCommandBody "list products") = false ∧
    specCommandRequestShape (dashboardCommandBody "list products") = false ∧
    specCommandRequestShape (shopAdminCommandBody "list products") = false := by
  decide

/-- C6 (amended): every inbound command call sends a JSON body carrying only
the command text — under key `text` (the dashboard variant and
`frontend/src/App.jsx`) or key `command` (the shop-admin variants) — with no
`context` object; the response (modelled from the spec) carries `success`,
`action`, `message`, `requires_confirmation` and optionally
`confirmation_id` and `data`. -/
theorem command_request_bodies_text_only (c : String) :
    hasField (dashboardCommandBody c) "text" = true ∧
    hasField (multiShopCommandBody c) "text" = true ∧
    hasField (shopAdminCommandBody c) "command" = true ∧
    hasField (dashboardCommandBody c) "context" = false ∧
    hasField (multiShopCommandBody c) "context" = false ∧
    hasField (shopAdminCommandBody c) "context" = false ∧
    (∀ r : CommandResponse, specCommandResponseShape (encodeCommandResponse r) = true) := by
  refine ⟨rfl, rfl, rfl, rfl, rfl, rfl, ?_⟩
  intro r
  cases r with
  | mk success action message rc ci d =>
    cases ci <;> cases d <;> rfl

/-- Entries not carrying the product id are untouched by the increment map
of `addToCart`. -/
theorem addToCart_map_filter_ne (p : Product) (cart : List CartItem) :
    (cart.map (fun i => if i.id == p.id then { i with qty := i.qty + 1 } else i)).filter
        (fun i => !(i.id == p.id))
      = cart.filter (fun i => !(i.id == p.id)) := by
  rw [List.filter_map]
  have hcong : cart.filter ((fun i => !(i.id == p.id)) ∘
      (fun i => if i.id == p.id then { i with qty := i.qty + 1 } else i))
      = cart.filter (fun i => !(i.id == p.id)) := by
    refine List.filter_congr ?_
    intro x hx
    by_cases hxp : (x.id == p.id) = true
    · simp only [Function.comp_apply, if_pos hxp]
    · simp only [Function.comp_apply, if_neg hxp]
  rw [hcong]
  have hid : ∀ x ∈ cart.filter (fun i => !(i.id == p.id)),
      (fun i => if i.id == p.id then { i with qty := i.qty + 1 } else i) x = id x := by
    intro x hx
    have hxf : (x.id == p.id) = false := by
      simpa using (List.mem_filter.mp hx).2
    simp [hxf]
  rw [List.map_congr_left hid, List.map_id]

/-- Entries carrying the product id have their qty incremented by exactly
one by the increment map of `addToCart`. -/
theorem addToCart_map_filter_eq (p : Product) (cart : List CartItem) :
    ((cart.map (fun i => if i.id == p.id then { i with qty := i.qty + 1 } else i)).filter
        (fun i => i.id == p.id)).map (fun i => i.qty)
      = ((cart.filter (fun i => i.id == p.id)).map (fun i => i.qty)).map (fun q => q + 1) := by
  rw [List.filter_map]
  have hcong : cart.filter ((fun i => i.id == p.id) ∘
      (fun i => if i.id == p.id then { i with qty := i.qty + 1 } else i))
      = cart.filter (fun i => i.id == p.id) := by
    refine List.filter_congr ?_
    intro x hx
    by_cases hxp : (x.id == p.id) = true
    · simp only [Function.comp_apply, if_pos hxp]
    · simp only [Function.comp_apply, if_neg hxp]
  rw [hcong, List.map_map, List.map_map]
  refine List.map_congr_left ?_
  intro x hx
  have hxq : x.id = p.id := by
    simpa using (List.mem_filter.mp hx).2
  simp [hxq]

/-- Under the uniqueness invariant, a present product id matches exactly one
cart entry. -/
theorem unique_filter_id_singleton (p : Product) (cart : List CartItem)
    (hu : cartUniqueIds cart) (hp : cart.any (fun i => i.id == p.id) = true) :
    (cart.filter (fun i => i.id == p.id)).length = 1 := by
  induction cart with
  | nil => simp at hp
  | cons a rest ih =>
    rcases List.pairwise_cons.mp hu with ⟨ha, hrest⟩
    by_cases h : a.id = p.id
    · have hnone : rest.filter (fun i => i.id == p.id) = [] := by
        refine List.filter_eq_nil_iff.mpr ?_
        intro x hx
        simp only [beq_iff_eq]
        intro hxid
        exact ha x hx (by rw [h, hxid])
      simp [h, hnone]
    · have hp' : rest.any (fun i => i.id == p.id) = true := by
        simpa [List.any_cons, h] using hp
      simpa [h] using ih hrest hp'

/-- C9: the cart never contains two entries with the same product id: both
cart operations preserve the uniqueness invariant; `addToCart` on a present
product keeps the entry count, increments the qty of exactly the one
matching entry by 1 and leaves the other entries unchanged; `addToCart` on
an absent product appends one entry with qty 1; and `removeFromCart`
removes exactly the entries with the given id. -/
theorem cart_operations_preserve_uniqueness (p : Product) (rid : Nat)
    (cart : List CartItem) (hu : cartUniqueIds cart) :
    cartUniqueIds (addToCart p cart) ∧
    cartUniqueIds (removeFromCart rid cart) ∧
    (cart.any (fun i => i.id == p.id) = true →
      (addToCart p cart).length = cart.length ∧
      (cart.filter (fun i => i.id == p.id)).length = 1 ∧
      ((addToCart p cart).filter (fun i => i.id == p.id)).map (fun i => i.qty)
        = ((cart.filter (fun i => i.id == p.id)).map (fun i => i.qty)).map (fun q => q + 1) ∧
      (addToCart p cart).filter (fun i => !(i.id == p.id))
        = cart.filter (fun i => !(i.id == p.id))) ∧
    (cart.any (fun i => i.id == p.id) = false →
      addToCart p cart
        = cart ++ [{ id := p.id, name := p.name, price := p.price, qty := 1 }]) ∧
    (∀ j, j ∈ removeFromCart rid cart ↔ (j ∈ cart ∧ j.id ≠ rid)) := by
  refine ⟨?_, ?_, ?_, ?_, ?_⟩
  · by_cases hp : cart.any (fun i => i.id == p.id) = true
    · unfold addToCart cartUniqueIds
      rw [if_pos hp]
      refine List.pairwise_map.mpr ?_
      refine List.Pairwise.imp ?_ hu
      intro a b hab
      have hkeep : ∀ x : CartItem,
          (if x.id == p.id then { x with qty := x.qty + 1 } else x).id = x.id := by
        intro x
        by_cases hx : (x.id == p.id) = true
        · rw [if_pos hx]
        · rw [if_neg hx]
      rw [hkeep a, hkeep b]
      exact hab
    · have hp' : cart.any (fun i => i.id == p.id) = false := by simpa using hp
      unfold addToCart cartUniqueIds
      rw [if_neg hp, List.pairwise_append]
      refine ⟨hu, by simp, ?_⟩
      intro a hamem b hbmem
      have hane := List.any_eq_false.mp hp' a hamem
      rw [List.mem_singleton] at hbmem
      subst hbmem
      simpa using hane
  · exact List.Pairwise.sublist (List.filter_sublist cart) hu
  · intro hp
    refine ⟨?_, unique_filter_id_singleton p cart hu hp, ?_, ?_⟩
    · simp [addToCart, hp]
    · unfold addToCart
      rw [if_pos hp]
      exact addToCart_map_filter_eq p cart
    · unfold addToCart
      rw [if_pos hp]
      exact addToCart_map_filter_ne p cart
  · intro hp
    have hp2 : ¬(cart.any (fun i => i.id == p.id) = true) := by simp [hp]
    unfold addToCart
    rw [if_neg hp2]
  · intro j
    simp [removeFromCart, List.mem_filter]

/-- Witness for the C9 theorem on a concrete two-entry cart. -/
theorem cart_operations_preserve_uniqueness_witness :
    cartUniqueIds (addToCart { id := 1, name := "iPhone", price := 999 }
      [{ id := 1, name := "iPhone", price := 999, qty := 2 },
       { id := 2, name := "Mac", price := 1999, qty := 1 }]) ∧
    (addToCart { id := 1, name := "iPhone", price := 999 }
      [{ id := 1, name := "iPhone", price := 999, qty := 2 },
       { id := 2, name := "Mac", price := 1999, qty := 1 }]).length = 2 :=
  ⟨(cart_operations_preserve_uniqueness { id := 1, name := "iPhone", price := 999 } 2
      [{ id := 1, name := "iPhone", price := 999, qty := 2 },
       { id := 2, name := "Mac", price := 1999, qty := 1 }]
      (by simp [cartUniqueIds])).1,
   ((cart_operations_preserve_uniqueness { id := 1, name := "iPhone", price := 999 } 2
      [{ id := 1, name := "iPhone", price := 999, qty := 2 },
       { id := 2, name := "Mac", price := 1999, qty := 1 }]
      (by simp [cartUniqueIds])).2.2.1 (by decide)).1⟩

/-- C8: every broadcast channel message has type `action_result` or
`data_update`; the client handler leaves the state unchanged on any other
message type, and on those two types adds one log entry (capped at 50) and
triggers exactly one data refetch. -/
theorem websocket_broadcast_handling :
    (∀ ev : BroadcastEvent,
      (BroadcastEvent.toMessage ev).type = "action_result" ∨
        (BroadcastEvent.toMessage ev).type = "data_update") ∧
    (∀ (msg : WsMessage) (st : ClientState),
      msg.type ≠ "action_result" → msg.type ≠ "data_update" →
        handleWebSocketMessage msg st = st) ∧
    (∀ (msg : WsMessage) (st : ClientState),
      (msg.type = "action_result" ∨ msg.type = "data_update") →
        (handleWebSocketMessage msg st).fetchCount = st.fetchCount + 1 ∧
        (handleWebSocketMessage msg st).logs.length = min 50 (st.logs.length + 1)) := by
  refine ⟨?_, ?_, ?_⟩
  · intro ev
    cases ev with
    | actionResult a m s => exact Or.inl rfl
    | dataUpdate e o => exact Or.inr rfl
  · intro msg st h1 h2
    simp [handleWebSocketMessage, h1, h2]
  · intro msg st h
    rcases h with h | h
    · refine ⟨?_, ?_⟩
      · simp [handleWebSocketMessage, h, addLog]
      · simp only [handleWebSocketMessage, h, if_true, addLog]
        simp [List.length_take]
        omega
    · have hne : msg.type ≠ "action_result" := by
        rw [h]
        decide
      refine ⟨?_, ?_⟩
      · simp [handleWebSocketMessage, h, hne, addLog]
      · simp only [handleWebSocketMessage, h, hne, if_true, if_false, addLog]
        simp [List.length_take]
        omega

/-- Witness for the C8 theorem: an unrecognized message type leaves a
concrete client state unchanged, and a `data_update` message bumps the
refetch counter. -/
theorem websocket_broadcast_handling_witness :
    handleWebSocketMessage
      { type := "ping", action := "", message := "", success := true,
        entity := "", operation := "" }
      { logs := [], fetchCount := 0 }
      = { logs := [], fetchCount := 0 } ∧
    (handleWebSocketMessage
      { type := "data_update", action := "", message := "", success := true,
        entity := "product", operation := "deleted" }
      { logs := [], fetchCount := 0 }).fetchCount = 0 + 1 :=
  ⟨websocket_broadcast_handling.2.1
      { type := "ping", action := "", message := "", success := true,
        entity := "", operation := "" }
      { logs := [], fetchCount := 0 } (by decide) (by decide),
   (websocket_broadcast_handling.2.2
      { type := "data_update", action := "", message := "", success := true,
        entity := "product", operation := "deleted" }
      { logs := [], fetchCount := 0 } (Or.inr rfl)).1⟩

/-- The Plan Executor produces one status per plan step. -/
theorem runPlan_length {σ α : Type} (exec : σ → α → Bool × σ) (s : σ)
    (plan : List α) :
    (runPlan exec s plan).statuses.length = plan.length := by
  induction plan generalizing s with
  | nil => rfl
  | cons a rest ih =>
    by_cases h : (exec s a).1 = true
    · simp [runPlan, h, ih]
    · simp [runPlan, h]

/-- C4: in a Plan Executor run whose status list marks step k as failed, the
result enumerates one status per step, every step before k as succeeded,
every step after k as not-attempted, and overall success is false. -/
theorem plan_executor_halts_at_first_failure {σ α : Type}
    (exec : σ → α → Bool × σ) (s : σ) (plan : List α) (k : Nat)
    (hk : (runPlan exec s plan).statuses.get? k = some StepStatus.failed) :
    (runPlan exec s plan).statuses.length = plan.length ∧
    (∀ i, i < k → (runPlan exec s plan).statuses.get? i = some StepStatus.succeeded) ∧
    (∀ i, k < i → i < plan.length →
      (runPlan exec s plan).statuses.get? i = some StepStatus.notAttempted) ∧
    (runPlan exec s plan).overallSuccess = false := by
  induction plan generalizing s k with
  | nil => simp [runPlan] at hk
  | cons a rest ih =>
    by_cases h : (exec s a).1 = true
    · cases k with
      | zero =>
        exfalso
        simp [runPlan, h] at hk
      | succ k2 =>
        have hk2 : (runPlan exec (exec s a).2 rest).statuses.get? k2
            = some StepStatus.failed := by
          simpa [runPlan, h] using hk
        obtain ⟨hlen, h1, h2, h3⟩ := ih (exec s a).2 k2 hk2
        refine ⟨?_, ?_, ?_, ?_⟩
        · simp [runPlan, h, hlen]
        · intro i hi
          cases i with
          | zero => simp [runPlan, h]
          | succ i2 =>
            simpa [runPlan, h] using h1 i2 (Nat.lt_of_succ_lt_succ hi)
        · intro i hgt hilen
          cases i with
          | zero => omega
          | succ i2 =>
            have hi2 : i2 < rest.length := by
              simpa using Nat.lt_of_succ_lt_succ hilen
            simpa [runPlan, h] using
              h2 i2 (Nat.lt_of_succ_lt_succ hgt) hi2
        · simpa [runPlan, h] using h3
    · have hk0 : k = 0 := by
        by_contra hne
        obtain ⟨k2, rfl⟩ := Nat.exists_eq_succ_of_ne_zero hne
        have hmap : (rest.map (fun _ => StepStatus.notAttempted)).get? k2
            = some StepStatus.failed := by
          simpa [runPlan, h] using hk
        rw [List.get?_map] at hmap
        cases hrg : rest.get? k2 with
        | none => rw [hrg] at hmap; simp at hmap
        | some x => rw [hrg] at hmap; simp at hmap
      subst hk0
      refine ⟨?_, ?_, ?_, ?_⟩
      · simp [runPlan, h]
      · intro i hi
        omega
      · intro i hgt hilen
        obtain ⟨i2, rfl⟩ := Nat.exists_eq_succ_of_ne_zero (Nat.pos_iff_ne_zero.mp hgt)
        have hi2 : i2 < rest.length := by simpa using Nat.lt_of_succ_lt_succ hilen
        simp [runPlan, h, List.getElem?_replicate, hi2]
      · simp [runPlan, h]

/-- Witness for the C4 theorem on a concrete three-step plan whose second
step fails. -/
theorem plan_executor_halts_at_first_failure_witness :
    (runPlan (fun (s a : Nat) => (a != 2, s + a)) 0 [1, 2, 3]).statuses.get? 0
      = some StepStatus.succeeded ∧
    (runPlan (fun (s a : Nat) => (a != 2, s + a)) 0 [1, 2, 3]).statuses.get? 2
      = some StepStatus.notAttempted ∧
    (runPlan (fun (s a : Nat) => (a != 2, s + a)) 0 [1, 2, 3]).overallSuccess = false :=
  ⟨(plan_executor_halts_at_first_failure (fun (s a : Nat) => (a != 2, s + a))
      0 [1, 2, 3] 1 (by decide)).2.1 0 (by decide),
   (plan_executor_halts_at_first_failure (fun (s a : Nat) => (a != 2, s + a))
      0 [1, 2, 3] 1 (by decide)).2.2.1 2 (by decide) (by decide),
   (plan_executor_halts_at_first_failure (fun (s a : Nat) => (a != 2, s + a))
      0 [1, 2, 3] 1 (by decide)).2.2.2⟩

/-- `markConsumed` preserves the consumed-token invariant. -/
theorem consumedAt_markConsumed (t u : Nat) (s : ManagerState)
    (h : consumedAt s t) : consumedAt (markConsumed u s) t := by
  obtain ⟨hlt, ⟨p, hp, hpt⟩, hall⟩ := h
  refine ⟨hlt, ?_, ?_⟩
  · refine ⟨if p.token == u then { p with consumed := true } else p, ?_, ?_⟩
    · exact List.mem_map_of_mem _ hp
    · by_cases hc : (p.token == u) = true
      · rw [if_pos hc]
        exact hpt
      · rw [if_neg hc]
        exact hpt
  · intro q hq hqt
    have hq2 : q ∈ s.pending.map (fun q0 =>
        if q0.token == u then { q0 with consumed := true } else q0) := hq
    rw [List.mem_map] at hq2
    obtain ⟨q0, hq0, rfl⟩ := hq2
    by_cases hc : (q0.token == u) = true
    · rw [if_pos hc]
    · rw [if_neg hc]
      rw [if_neg hc] at hqt
      exact hall q0 hq0 hqt

/-- Filtering the registry with a predicate that keeps every consumed entry
preserves the consumed-token invariant. -/
theorem consumedAt_filterKeep (t : Nat) (s : ManagerState)
    (f : PendingConfirmation → Bool) (hf : ∀ p, p.consumed = true → f p = true)
    (h : consumedAt s t) :
    consumedAt { s with pending := s.pending.filter f } t := by
  obtain ⟨hlt, ⟨p, hp, hpt⟩, hall⟩ := h
  exact ⟨hlt, ⟨p, List.mem_filter.mpr ⟨hp, hf p (hall p hp hpt)⟩, hpt⟩,
    fun q hq hqt => hall q (List.mem_filter.mp hq).1 hqt⟩

/-- `createConfirmation` appends only a fresh token, preserving the
consumed-token invariant. -/
theorem consumedAt_createConfirmation (t : Nat) (action : String)
    (params : List (String × String)) (requester : String) (now ttl : Nat)
    (s : ManagerState) (h : consumedAt s t) :
    consumedAt (createConfirmation action params requester now ttl s).2 t := by
  obtain ⟨hlt, ⟨p, hp, hpt⟩, hall⟩ := h
  refine ⟨Nat.lt_succ_of_lt hlt, ⟨p, List.mem_append_left _ hp, hpt⟩, ?_⟩
  intro q hq hqt
  rcases List.mem_append.mp hq with hq1 | hq2
  · exact hall q hq1 hqt
  · rw [List.mem_singleton] at hq2
    subst hq2
    exfalso
    have hnt : s.nextToken = t := hqt
    omega

/-- `sendCommand` preserves the consumed-token invariant. -/
theorem consumedAt_sendCommand (t : Nat) (d : ActionDescriptor)
    (params : List (String × String)) (requester : String)
    (tokenOpt : Option Nat) (now ttl : Nat) (s : ManagerState)
    (h : consumedAt s t) :
    consumedAt (sendCommand d params requester tokenOpt now ttl s).2 t := by
  unfold sendCommand
  by_cases hc : (d.destructive && !(tokenValidFor s now d.name params tokenOpt)) = true
  · rw [if_pos hc]
    exact consumedAt_createConfirmation t d.name params requester now ttl s h
  · rw [if_neg hc]
    by_cases hdd : d.destructive = true
    · rw [if_pos hdd]
      cases tokenOpt with
      | none => exact h
      | some u => exact consumedAt_markConsumed t u s h
    · rw [if_neg hdd]
      exact h

/-- `confirmToken` (on any token) preserves the consumed-token invariant. -/
theorem consumedAt_confirmToken (t t2 now : Nat) (s : ManagerState)
    (h : consumedAt s t) : consumedAt (confirmToken t2 now s).2 t := by
  rcases hl : lookupToken s t2 with _ | p
  · simp only [confirmToken, hl]
    exact h
  · by_cases hpc : p.consumed = true
    · simp only [confirmToken, hl, hpc, if_true]
      exact h
    · by_cases hpe : p.expiresAt ≤ now
      · simp only [confirmToken, hl, hpc, if_false, hpe, if_true]
        exact h
      · simp only [confirmToken, hl, hpc, if_false, hpe]
        exact consumedAt_markConsumed t t2 s h

/-- Every registry operation preserves the consumed-token invariant. -/
theorem consumedAt_applyOp (t : Nat) (s : ManagerState) (op : ManagerOp)
    (h : consumedAt s t) : consumedAt (applyOp s op) t := by
  cases op with
  | command d params requester tokenOpt now ttl =>
    exact consumedAt_sendCommand t d params requester tokenOpt now ttl s h
  | confirm t2 now => exact consumedAt_confirmToken t t2 now s h
  | sweep now =>
    exact consumedAt_filterKeep t s _ (fun p hp => by simp [hp]) h
  | cancel t2 =>
    exact consumedAt_filterKeep t s _ (fun p hp => by simp [hp]) h

/-- Any sequence of registry operations preserves the consumed-token
invariant. -/
theorem consumedAt_applyOps (t : Nat) (s : ManagerState) (ops : List ManagerOp)
    (h : consumedAt s t) : consumedAt (applyOps s ops) t := by
  induction ops generalizing s with
  | nil => exact h
  | cons op rest ih => exact ih _ (consumedAt_applyOp t s op h)

/-- On a state satisfying the consumed-token invariant, `confirmToken`
reports `AlreadyConsumed` and changes nothing. -/
theorem alreadyConsumed_of_consumedAt (t now : Nat) (s : ManagerState)
    (h : consumedAt s t) :
    (confirmToken t now s).1 = ConfirmOutcome.alreadyConsumed ∧
    (confirmToken t now s).2 = s := by
  obtain ⟨hlt, ⟨p, hp, hpt⟩, hall⟩ := h
  have hiss : (s.pending.find? (fun q => q.token == t)).isSome = true := by
    rw [List.find?_isSome]
    exact ⟨p, hp, by simpa using hpt⟩
  obtain ⟨q, hq⟩ := Option.isSome_iff_exists.mp hiss
  have hqt : q.token = t := by simpa using List.find?_some hq
  have hqc : q.consumed = true := hall q (List.mem_of_find?_eq_some hq) hqt
  have hlook : lookupToken s t = some q := hq
  simp [confirmToken, hlook, hqc]

/-- A successful `confirmToken` establishes the consumed-token invariant. -/
theorem consumedAt_of_confirm_success (t now : Nat) (s : ManagerState)
    (a : String) (ps : List (String × String))
    (hfresh : ∀ p, p ∈ s.pending → p.token < s.nextToken)
    (hsucc : (confirmToken t now s).1 = ConfirmOutcome.executed a ps) :
    consumedAt (confirmToken t now s).2 t := by
  rcases hl : lookupToken s t with _ | p
  · simp [confirmToken, hl] at hsucc
  · by_cases hpc : p.consumed = true
    · simp [confirmToken, hl, hpc] at hsucc
    · by_cases hpe : p.expiresAt ≤ now
      · simp [confirmToken, hl, hpc, hpe] at hsucc
      · have hpmem : p ∈ s.pending := List.mem_of_find?_eq_some hl
        have hpt : p.token = t := by simpa using List.find?_some hl
        have hstate : (confirmToken t now s).2
            = { markConsumed t s with
                domainLog := s.domainLog ++ [(p.actionName, p.params)] } := by
          simp [confirmToken, hl, hpc, hpe]
        rw [hstate]
        refine ⟨?_, ?_, ?_⟩
        · show t < s.nextToken
          exact hpt ▸ hfresh p hpmem
        · refine ⟨{ p with consumed := true }, ?_, hpt⟩
          show { p with consumed := true } ∈ s.pending.map (fun q =>
            if q.token == t then { q with consumed := true } else q)
          have hfp : (fun (q : PendingConfirmation) =>
              if q.token == t then { q with consumed := true } else q) p
              = { p with consumed := true } := by
            have hb : (p.token == t) = true := by simpa using hpt
            simp [hb]
          rw [← hfp]
          exact List.mem_map_of_mem _ hpmem
        · intro q hq hqt
          have hq2 : q ∈ s.pending.map (fun q0 =>
              if q0.token == t then { q0 with consumed := true } else q0) := hq
          rw [List.mem_map] at hq2
          obtain ⟨q0, hq0, rfl⟩ := hq2
          by_cases hc : (q0.token == t) = true
          · rw [if_pos hc]
          · rw [if_neg hc] at hqt
            exact absurd (by simpa using hqt) (fun he => hc (by simpa using he))

/-- C1: invoking a destructive action through the command call without a
prior valid confirmation token returns `requires_confirmation = true` with a
confirmation id and appends nothing to the domain log; the pending action
executes exactly once a subsequent confirm call consumes that token (before
its expiry). -/
theorem destructive_command_gated (d : ActionDescriptor)
    (params : List (String × String)) (requester : String)
    (tokenOpt : Option Nat) (now now2 ttl : Nat) (s : ManagerState)
    (hd : d.destructive = true)
    (hv : tokenValidFor s now d.name params tokenOpt = false)
    (hfresh : ∀ p, p ∈ s.pending → p.token < s.nextToken)
    (hlive : now2 < now + ttl) :
    (sendCommand d params requester tokenOpt now ttl s).1.requiresConfirmation = true ∧
    (sendCommand d params requester tokenOpt now ttl s).1.confirmationId = some s.nextToken ∧
    (sendCommand d params requester tokenOpt now ttl s).2.domainLog = s.domainLog ∧
    (confirmToken s.nextToken now2 (sendCommand d params requester tokenOpt now ttl s).2).1
      = ConfirmOutcome.executed d.name params ∧
    (confirmToken s.nextToken now2 (sendCommand d params requester tokenOpt now ttl s).2).2.domainLog
      = s.domainLog ++ [(d.name, params)] := by
  have hcond : (d.destructive && !(tokenValidFor s now d.name params tokenOpt)) = true := by
    rw [hd, hv]
    rfl
  have hpair : sendCommand d params requester tokenOpt now ttl s
      = ({ success := false, action := d.name, message := "confirmation required",
           requiresConfirmation := true, confirmationId := some s.nextToken,
           data := none },
         { s with nextToken := s.nextToken + 1,
                  pending := s.pending ++
                    [{ token := s.nextToken, actionName := d.name, params := params,
                       requester := requester, createdAt := now,
                       expiresAt := now + ttl, consumed := false }] }) := by
    simp [sendCommand, hcond, createConfirmation]
  have hnone : s.pending.find? (fun p => p.token == s.nextToken) = none := by
    rw [List.find?_eq_none]
    intro p hp
    simp only [beq_iff_eq]
    exact Nat.ne_of_lt (hfresh p hp)
  have hexp : ¬(now + ttl ≤ now2) := Nat.not_le.mpr hlive
  rw [hpair]
  refine ⟨rfl, rfl, rfl, ?_, ?_⟩
  · simp [confirmToken, lookupToken, List.find?_append, hnone, hexp]
  · simp [confirmToken, lookupToken, List.find?_append, hnone, hexp, markConsumed]

/-- Witness for the C1 theorem: a concrete destructive descriptor invoked on
an empty registry demands confirmation, and confirming the issued token
executes exactly the pending action. -/
theorem destructive_command_gated_witness :
    (sendCommand { name := "delete_product", destructive := true, allowedRoles := ["admin"] }
        [("id", "5")] "admin" none 0 300
        { pending := [], nextToken := 0, domainLog := [] }).1.requiresConfirmation = true ∧
    (confirmToken 0 10
        (sendCommand { name := "delete_product", destructive := true, allowedRoles := ["admin"] }
          [("id", "5")] "admin" none 0 300
          { pending := [], nextToken := 0, domainLog := [] }).2).2.domainLog
      = [("delete_product", [("id", "5")])] := by
  have h := destructive_command_gated
    { name := "delete_product", destructive := true, allowedRoles := ["admin"] }
    [("id", "5")] "admin" none 0 10 300
    { pending := [], nextToken := 0, domainLog := [] }
    rfl rfl (by simp) (by decide)
  exact ⟨h.1, h.2.2.2.2⟩

/-- C2: confirmation tokens are single-use: once a `confirmToken` call has
succeeded, every later `confirmToken` on the same token — across any
sequence of registry operations in between — returns `AlreadyConsumed` and
changes nothing, so a consumed token never becomes usable again. -/
theorem confirmation_tokens_single_use (t now now2 : Nat) (s : ManagerState)
    (ops : List ManagerOp) (a : String) (ps : List (String × String))
    (hfresh : ∀ p, p ∈ s.pending → p.token < s.nextToken)
    (hsucc : (confirmToken t now s).1 = ConfirmOutcome.executed a ps) :
    (confirmToken t now2 (applyOps (confirmToken t now s).2 ops)).1
      = ConfirmOutcome.alreadyConsumed ∧
    (confirmToken t now2 (applyOps (confirmToken t now s).2 ops)).2
      = applyOps (confirmToken t now s).2 ops :=
  alreadyConsumed_of_consumedAt t now2 _
    (consumedAt_applyOps t _ ops (consumedAt_of_confirm_success t now s a ps hfresh hsucc))

/-- Witness for the C2 theorem: the sample token is consumed at tick 5, a
sweep runs at tick 400, and a second confirm at tick 500 reports
`AlreadyConsumed`. -/
theorem confirmation_tokens_single_use_witness :
    (confirmToken 0 500 (applyOps (confirmToken 0 5 samplePendingState).2
        [ManagerOp.sweep 400])).1 = ConfirmOutcome.alreadyConsumed :=
  (confirmation_tokens_single_use 0 5 500 samplePendingState [ManagerOp.sweep 400]
    "delete_product" [("id", "5")] (by decide) (by decide)).1

/-- C3 counterexample: after the garbage-collection sweep has collected the
expired, unconsumed sample token, confirming it fails with `Unknown`, not
with `Expired` as the claim states. -/
theorem expired_confirmation_sweep_counterexample :
    (confirmToken 0 20 (sweepExpired 20 samplePendingState)).1 = ConfirmOutcome.unknown ∧
    ConfirmOutcome.unknown ≠ ConfirmOutcome.expired := by
  decide

/-- C3 (amended): an expired, never-consumed token can never be confirmed
and its pending action is never executed, whether or not a sweep has run:
before a sweep the confirm call fails with `Expired`; after a sweep it fails
with `Expired` or `Unknown`; in every case the state (and so the domain
log) is unchanged. -/
theorem expired_token_never_executes (s : ManagerState) (t now sweepTime : Nat)
    (hmem : ∃ p, p ∈ s.pending ∧ p.token = t)
    (hall : ∀ p, p ∈ s.pending → p.token = t → p.consumed = false ∧ p.expiresAt ≤ now) :
    ((confirmToken t now s).1 = ConfirmOutcome.expired ∧
      (confirmToken t now s).2 = s) ∧
    (((confirmToken t now (sweepExpired sweepTime s)).1 = ConfirmOutcome.expired ∨
        (confirmToken t now (sweepExpired sweepTime s)).1 = ConfirmOutcome.unknown) ∧
      (confirmToken t now (sweepExpired sweepTime s)).2 = sweepExpired sweepTime s) := by
  constructor
  · obtain ⟨p, hp, hpt⟩ := hmem
    have hiss : (s.pending.find? (fun q => q.token == t)).isSome = true := by
      rw [List.find?_isSome]
      exact ⟨p, hp, by simpa using hpt⟩
    obtain ⟨q, hq⟩ := Option.isSome_iff_exists.mp hiss
    have hqt : q.token = t := by simpa using List.find?_some hq
    obtain ⟨hqc, hqe⟩ := hall q (List.mem_of_find?_eq_some hq) hqt
    have hlook : lookupToken s t = some q := hq
    simp [confirmToken, hlook, hqc, hqe]
  · rcases hl : lookupToken (sweepExpired sweepTime s) t with _ | q
    · simp [confirmToken, hl]
    · have hqmem : q ∈ s.pending.filter
          (fun p => p.consumed || decide (sweepTime < p.expiresAt)) :=
        List.mem_of_find?_eq_some hl
      have hqmem2 : q ∈ s.pending := (List.mem_filter.mp hqmem).1
      have hqt : q.token = t := by simpa using List.find?_some hl
      obtain ⟨hqc, hqe⟩ := hall q hqmem2 hqt
      simp [confirmToken, hl, hqc, hqe]

/-- Witness for the amended C3 theorem: the sample token expires at tick 10;
confirming at tick 20 fails with `Expired` and leaves the state intact. -/
theorem expired_token_never_executes_witness :
    (confirmToken 0 20 samplePendingState).1 = ConfirmOutcome.expired ∧
    (confirmToken 0 20 samplePendingState).2 = samplePendingState :=
  (expired_token_never_executes samplePendingState 0 20 20 (by decide) (by decide)).1

/-- C5: both resolution paths only ever name actions in the caller's
role-visible catalog subset: a primary-path intent naming an invisible
action resolves to `ParseFailure`, a fallback rule naming an invisible
action resolves to `ParseFailure`, every resolved intent names a visible
action, and a `ParseFailure` forwards nothing to execution. -/
theorem resolver_restricts_to_visible_catalog (catalog : List ActionDescriptor)
    (rules : List MatcherRule) (role text : String)
    (log : List (String × List (String × String))) :
    (∀ i : Intent,
      (roleVisible catalog role).any (fun d => d.name == i.actionName) = false →
        resolve catalog rules role (some i) text = ResolveResult.parseFailure) ∧
    (∀ r : MatcherRule, rules.find? (fun rr => rr.applies text) = some r →
      (roleVisible catalog role).any (fun d => d.name == r.action) = false →
        resolve catalog rules role none text = ResolveResult.parseFailure) ∧
    (∀ (primary : Option Intent) (i : Intent),
      resolve catalog rules role primary text = ResolveResult.ok i →
        (roleVisible catalog role).any (fun d => d.name == i.actionName) = true) ∧
    (∀ primary : Option Intent,
      resolve catalog rules role primary text = ResolveResult.parseFailure →
        forwardResolved log (resolve catalog rules role primary text) = log) := by
  refine ⟨?_, ?_, ?_, ?_⟩
  · intro i hi
    simp [resolve, hi]
  · intro r hr hi
    simp [resolve, hr, hi]
  · intro primary i hok
    cases primary with
    | some j =>
      by_cases hv : (roleVisible catalog role).any (fun d => d.name == j.actionName) = true
      · have hji : j = i := by
          simpa [resolve, hv] using hok
        rw [← hji]
        exact hv
      · have hv2 : (roleVisible catalog role).any (fun d => d.name == j.actionName) = false := by
          simpa using hv
        simp [resolve, hv2] at hok
    | none =>
      rcases hr : rules.find? (fun rr => rr.applies text) with _ | r
      · simp [resolve, hr] at hok
      · by_cases hv : (roleVisible catalog role).any (fun d => d.name == r.action) = true
        · have hji : ({ actionName := r.action, params := r.extract text, fromFallback := true } : Intent) = i := by
            simpa [resolve, hr, hv] using hok
          rw [← hji]
          exact hv
        · have hv2 : (roleVisible catalog role).any (fun d => d.name == r.action) = false := by
            simpa using hv
          simp [resolve, hr, hv2] at hok
  · intro primary hpf
    rw [hpf]
    rfl

/-- Witness for the C5 theorem: a customer-role caller naming the
admin-only action through the primary path gets `ParseFailure`, and the
execution log stays empty. -/
theorem resolver_restricts_to_visible_catalog_witness :
    resolve [{ name := "delete_product", destructive := true, allowedRoles := ["admin"] }]
      [] "customer" (some { actionName := "delete_product", params := [], fromFallback := false })
      "delete product 5" = ResolveResult.parseFailure ∧
    forwardResolved []
      (resolve [{ name := "delete_product", destructive := true, allowedRoles := ["admin"] }]
        [] "customer" (some { actionName := "delete_product", params := [], fromFallback := false })
        "delete product 5") = [] := by
  have h := resolver_restricts_to_visible_catalog
    [{ name := "delete_product", destructive := true, allowedRoles := ["admin"] }]
    [] "customer" "delete product 5" []
  have h1 := h.1 { actionName := "delete_product", params := [], fromFallback := false }
    (by decide)
  exact ⟨h1, h.2.2.2 _ h1⟩

/-- C7: the Suggestion Engine is deterministic — two `suggest` calls with
the same partial input, role, limit and catalog return the identical list —
and the returned ranking is sorted by score with ties broken by catalog
declaration order. -/
theorem suggestion_ranking_deterministic (catalog : List SuggestEntry)
    (role query : String) (limit : Nat) :
    suggest catalog role query limit = suggest catalog role query limit ∧
    (suggest catalog role query limit).Pairwise suggestKeyLE :=
  ⟨rfl,
   List.Pairwise.sublist (List.take_sublist _ _)
     (List.sorted_insertionSort suggestKeyLE _)⟩
